import Mathlib

/-
Verification of the Sokoban level decoder and game-state transition logic
(sokoban.go). The Go code is shallowly embedded: the grid is a list of
columns of numeric tile codes, player coordinates are integers, and a Go
index-out-of-range abort is modelled by an Option/none (or a dedicated
fault result in the fuel-indexed decode loop).
-/

namespace Sokoban

/-- Tile sprite codes from the source's const block. -/
def EMPTY : Nat := 89

/-- Wall tile code. -/
def WALL : Nat := 98

/-- Box tile code. -/
def BOX : Nat := 6

/-- Box-on-goal tile code. -/
def PLACED_BOX : Nat := 9

/-- Goal tile code. -/
def GOAL : Nat := 102

/-- Player sprite facing up. -/
def PLAYERUP : Nat := 55

/-- Player sprite facing down. -/
def PLAYERDN : Nat := 52

/-- Player sprite facing right. -/
def PLAYERRI : Nat := 78

/-- Player sprite facing left. -/
def PLAYERLE : Nat := 81

/-- Direction code UP. In the source the four directions are declared with iota
inside the shared const block, so UP receives the index of its ConstSpec in
that block (12) and the remaining three follow; only distinctness matters. -/
def UP : Nat := 12

/-- Direction code RIGHT. -/
def RIGHT : Nat := 13

/-- Direction code DOWN. -/
def DOWN : Nat := 14

/-- Direction code LEFT. -/
def LEFT : Nat := 15

/-- Index of the last level. -/
def LEVEL_MAX : Nat := 62

/-- Window width in pixels. -/
def screenWidth : Nat := 1900

/-- Window height in pixels. -/
def screenHeight : Nat := 1000

/-- The Level structure of the source: dimensions, player coordinates, player
sprite, display zoom factor and screen offsets, and the grid as a list of
columns (grid[x][y] in the source). Go float64 display fields are modelled by
exact rationals; no claim concerns rounding. -/
structure Level where
  w : Nat
  h : Nat
  px : Int
  py : Int
  psprite : Nat
  zfactor : Rat
  sx : Rat
  sy : Rat
  grid : List (List Nat)
deriving DecidableEq

/-- Fallible list indexing at an integer index; a negative or too-large index
yields none (in Go such an index aborts the program). -/
def idx? {α : Type _} (l : List α) (i : Int) : Option α :=
  if 0 ≤ i then l.get? i.toNat else none

/-- Read grid[x][y] at integer coordinates; none models the Go abort on an
out-of-range index. -/
def gridGet (g : List (List Nat)) (x y : Int) : Option Nat :=
  (idx? g x).bind (fun col => idx? col y)

/-- Read grid[x][y] at natural coordinates. -/
def gridGetN (g : List (List Nat)) (x y : Nat) : Option Nat :=
  (g.get? x).bind (fun col => col.get? y)

/-- Write v into grid[x][y]; the writes performed by the source always follow a
successful read at the same coordinates, so the out-of-range branch (in which
Go would abort) is never exercised by the verified code paths. -/
def gridSet (g : List (List Nat)) (x y : Int) (v : Nat) : List (List Nat) :=
  if 0 ≤ x ∧ 0 ≤ y ∧ x.toNat < g.length then
    g.set x.toNat ((g.getD x.toNat []).set y.toNat v)
  else g

/-- The handleMove function of the source: look one cell ahead of the player in
direction (dx, dy); walk into Empty/Goal, push a Box/PlacedBox when the cell
beyond is Empty/Goal, otherwise change nothing. The source's saveTile local
(GOAL when pushing off a PlacedBox, else EMPTY) is inlined. A none result
models the Go index-out-of-range abort on the grid lookups. -/
def handleMove (dx dy : Int) (l : Level) : Option Level :=
  match gridGet l.grid (l.px + dx) (l.py + dy) with
  | none => none
  | some moveOnce =>
    if moveOnce = EMPTY ∨ moveOnce = GOAL then
      some { l with px := l.px + dx, py := l.py + dy }
    else if moveOnce = BOX ∨ moveOnce = PLACED_BOX then
      match gridGet l.grid (l.px + 2 * dx) (l.py + 2 * dy) with
      | none => none
      | some moveTwice =>
        if moveTwice = EMPTY then
          some { l with
                 grid := gridSet (gridSet l.grid (l.px + dx) (l.py + dy)
                                   (if moveOnce = PLACED_BOX then GOAL else EMPTY))
                                 (l.px + 2 * dx) (l.py + 2 * dy) BOX,
                 px := l.px + dx, py := l.py + dy }
        else if moveTwice = GOAL then
          some { l with
                 grid := gridSet (gridSet l.grid (l.px + dx) (l.py + dy)
                                   (if moveOnce = PLACED_BOX then GOAL else EMPTY))
                                 (l.px + 2 * dx) (l.py + 2 * dy) PLACED_BOX,
                 px := l.px + dx, py := l.py + dy }
        else some l
    else some l

/-- Count the cells equal to tile t in the w-by-h region of the grid, mirroring
the nested counting loop of the source's nBoxesLeft. -/
def countTile (g : List (List Nat)) (w h t : Nat) : Nat :=
  ∑ x in Finset.range w, ∑ y in Finset.range h, if gridGetN g x y = some t then 1 else 0

/-- The nBoxesLeft function of the source: the number of cells of the current
grid equal to BOX (PlacedBox cells do not count). -/
def nBoxesLeft (l : Level) : Nat :=
  countTile l.grid l.w l.h BOX

/-- Independent count of the grid cells equal to BOX, written from the spec's
words (count cells equal to Box across the grid) by direct traversal of the
column lists, to compare against nBoxesLeft. -/
def boxCellCount (g : List (List Nat)) : Nat :=
  (g.map (fun col => (col.filter (fun c => c == BOX)).length)).sum

/-- The mutable session of the source: current level index, move history, and
the live decoded level. -/
structure Session where
  currentLevelNumber : Nat
  moves : List Nat
  curLev : Level
deriving DecidableEq

/-- Horizontal step of a direction code (Right is +1, Left is -1). -/
def dirDx (d : Nat) : Int :=
  if d = RIGHT then 1 else if d = LEFT then -1 else 0

/-- Vertical step of a direction code (Up is -1, Down is +1). -/
def dirDy (d : Nat) : Int :=
  if d = UP then -1 else if d = DOWN then 1 else 0

/-- Player sprite selected for a direction code. -/
def dirSprite (d : Nat) : Nat :=
  if d = RIGHT then PLAYERRI else if d = LEFT then PLAYERLE
  else if d = UP then PLAYERUP else PLAYERDN

/-- One replayed direction: set the facing sprite and run handleMove with the
direction's step, exactly as both the undo replay loop and the four arrow-key
branches of Update do; a direction code outside the four changes nothing. -/
def replayMove (l : Level) (d : Nat) : Option Level :=
  if d = RIGHT then handleMove 1 0 { l with psprite := PLAYERRI }
  else if d = LEFT then handleMove (-1) 0 { l with psprite := PLAYERLE }
  else if d = UP then handleMove 0 (-1) { l with psprite := PLAYERUP }
  else if d = DOWN then handleMove 0 1 { l with psprite := PLAYERDN }
  else some l

/-- One attempted move issued by the player, as in the arrow-key branches of
Update: the facing sprite is set, the direction is appended to the move
history, and handleMove runs. -/
def attemptMove (s : Session) (d : Nat) : Option Session :=
  match replayMove s.curLev d with
  | none => none
  | some l => some { currentLevelNumber := s.currentLevelNumber,
                     moves := s.moves ++ [d], curLev := l }

/-- Replay a list of directions through replayMove, as the undo branch of
Update does. -/
def replayAll : Level → List Nat → Option Level
  | l, [] => some l
  | l, d :: ds =>
    match replayMove l d with
    | none => none
    | some l1 => replayAll l1 ds

/-- Run a list of attempted moves through attemptMove. -/
def runMoves : Session → List Nat → Option Session
  | s, [] => some s
  | s, d :: ds =>
    match attemptMove s d with
    | none => none
    | some s1 => runMoves s1 ds

/-- Result of the RLE decode loop: a finished grid, a fault (the Go program
aborts on an out-of-range bit index), or exhaustion of the fuel bound used to
model the unbounded Go loop. -/
inductive DecodeResult where
  | ok (grid : List Nat) : DecodeResult
  | fault : DecodeResult
  | outOfFuel : DecodeResult
deriving DecidableEq

/-- Extract one run-length counter starting at bit index i, as in the source:
a 0 bit gives counter 1 consuming one bit; a 1 bit consumes three further bits
d3 d2 d1 and gives 2 plus 4 for d3, 2 for d2, 1 for d1. The returned index is
the position after the consumed bits; none models the Go abort on an
out-of-range bit index. -/
def readCounter (bits : List Bool) (i : Nat) : Option (Nat × Nat) :=
  match bits.get? i with
  | none => none
  | some false => some (1, i + 1)
  | some true =>
    match bits.get? (i + 1), bits.get? (i + 2), bits.get? (i + 3) with
    | some d3, some d2, some d1 =>
      some (2 + (if d3 then 4 else 0) + (if d2 then 2 else 0) + (if d1 then 1 else 0), i + 4)
    | _, _, _ => none

/-- Extract one tile object starting at bit index i, as in the source: 00 is
EMPTY, 01 is WALL, 10 is BOX (two bits), 110 is GOAL, 111 is PLACED_BOX. -/
def readObject (bits : List Bool) (i : Nat) : Option (Nat × Nat) :=
  match bits.get? i with
  | none => none
  | some false =>
    match bits.get? (i + 1) with
    | none => none
    | some false => some (EMPTY, i + 2)
    | some true => some (WALL, i + 2)
  | some true =>
    match bits.get? (i + 1) with
    | none => none
    | some false => some (BOX, i + 2)
    | some true =>
      match bits.get? (i + 2) with
      | none => none
      | some true => some (PLACED_BOX, i + 3)
      | some false => some (GOAL, i + 3)

/-- The RLE decode loop of decompressLevel: while the number of emitted tiles
differs from the target w*h, read one counter and one object and append
counter copies of the object. Fuel bounds the iteration count of the unbounded
Go loop; a fault is an out-of-range bit access. -/
def decodeLoop (bits : List Bool) (target : Nat) : Nat → Nat → List Nat → DecodeResult
  | 0, _, _ => DecodeResult.outOfFuel
  | fuel + 1, i, grid =>
    if grid.length = target then DecodeResult.ok grid
    else
      match readCounter bits i with
      | none => DecodeResult.fault
      | some ci =>
        match readObject bits ci.2 with
        | none => DecodeResult.fault
        | some oi => decodeLoop bits target fuel oi.2 (grid ++ List.replicate ci.1 oi.1)

/-- Run-length rule written from the spec's words: if the next bit is 0 the
run length is 1 consuming one bit; if it is 1, three further bits d3 d2 d1 form
the run length 2 + d3*4 + d2*2 + d1. Stated on the remaining bit stream, to be
compared with readCounter. -/
def specReadRun : List Bool → Option (Nat × List Bool)
  | false :: rest => some (1, rest)
  | true :: d3 :: d2 :: d1 :: rest =>
    some (2 + 4 * d3.toNat + 2 * d2.toNat + d1.toNat, rest)
  | _ => none

/-- Tile-symbol rule written from the spec's words: code 00 is Empty, 01 is
Wall, 10 is Box (exactly two bits), 110 is Goal, 111 is PlacedBox. Stated on
the remaining bit stream, to be compared with readObject. -/
def specReadSym : List Bool → Option (Nat × List Bool)
  | false :: false :: rest => some (EMPTY, rest)
  | false :: true :: rest => some (WALL, rest)
  | true :: false :: rest => some (BOX, rest)
  | true :: true :: false :: rest => some (GOAL, rest)
  | true :: true :: true :: rest => some (PLACED_BOX, rest)
  | _ => none

/-- Decoder written from the spec's words: read (runLength, tileSymbol) pairs
from the stream and emit the symbol runLength times until exactly target tiles
have been produced. To be compared with decodeLoop. -/
def specDecode (target : Nat) : Nat → List Bool → List Nat → DecodeResult
  | 0, _, _ => DecodeResult.outOfFuel
  | fuel + 1, s, acc =>
    if acc.length = target then DecodeResult.ok acc
    else
      match specReadRun s with
      | none => DecodeResult.fault
      | some rs =>
        match specReadSym rs.2 with
        | none => DecodeResult.fault
        | some ss => specDecode target fuel ss.2 (acc ++ List.replicate rs.1 ss.1)

/-- Bits of one byte, most significant first, as produced by the source's
inner loop over j from 7 down to 0 testing b and (1 shifted left by j). -/
def byteBits (b : Nat) : List Bool :=
  [7, 6, 5, 4, 3, 2, 1, 0].map (fun j => Nat.testBit b j)

/-- Bitstream of a byte sequence, most significant bit first in each byte. -/
def bytesToBits (bs : List Nat) : List Bool :=
  bs.flatMap byteBits

/-- Display transform computed at the end of decompressLevel: uniform zoom
factor fitting the 64-pixel tiles into the window plus centering offsets. -/
def screenTransform (w h : Nat) : Rat × Rat × Rat :=
  let width : Rat := 64 * w
  let height : Rat := 64 * h
  let factorW : Rat := (screenWidth : Rat) / width
  let factorH : Rat := (screenHeight : Rat) / height
  if factorW > factorH then
    (factorH, ((screenWidth : Rat) - factorH * width) / 2, 0)
  else
    (factorW, 0, ((screenHeight : Rat) - factorW * height) / 2)

/-- The decompressLevel function of the source: byte 0 is the width, byte 1
the height, the last two bytes the player coordinates; the bytes in between
form the bitstream fed to the RLE decode loop, and the flat decoded sequence
is laid out column-by-column into grid[x][y] = flat[y*w + x]. A none result
models either a Go abort or exhaustion of the loop fuel. -/
def decompressLevel (fuel : Nat) (level : List Nat) : Option Level :=
  match level.get? 0, level.get? 1,
        level.get? (level.length - 2), level.get? (level.length - 1) with
  | some w, some h, some pxb, some pyb =>
    match decodeLoop (bytesToBits ((level.drop 2).take (level.length - 4)))
            (w * h) fuel 0 [] with
    | DecodeResult.ok flat =>
      some { w := w, h := h, px := (pxb : Int), py := (pyb : Int), psprite := PLAYERUP,
             zfactor := (screenTransform w h).1, sx := (screenTransform w h).2.1,
             sy := (screenTransform w h).2.2,
             grid := (List.range w).map
               (fun x => (List.range h).map (fun y => flat.getD (y * w + x) 0)) }
    | _ => none
  | _, _, _, _ => none

/-- The undo branch of Update: with a nonempty history, re-decode the level at
the current index, replay every history entry except the last, and drop the
last entry; with an empty history nothing happens. The level corpus is an
arbitrary function from index to byte buffer. -/
def undo (levels : Nat → List Nat) (fuel : Nat) (s : Session) : Option Session :=
  if s.moves.length > 0 then
    match decompressLevel fuel (levels s.currentLevelNumber) with
    | none => none
    | some l0 =>
      match replayAll l0 (s.moves.take (s.moves.length - 1)) with
      | none => none
      | some l => some { currentLevelNumber := s.currentLevelNumber,
                         moves := s.moves.take (s.moves.length - 1), curLev := l }
  else some s

/-- The win-advance step at the end of Update: when no BOX cell remains,
increment the level index, clamp it at LEVEL_MAX, decode the level at the new
index, and clear the history. -/
def winCheck (levels : Nat → List Nat) (fuel : Nat) (s : Session) : Option Session :=
  if nBoxesLeft s.curLev = 0 then
    match decompressLevel fuel (levels (if s.currentLevelNumber + 1 > LEVEL_MAX then LEVEL_MAX
                                        else s.currentLevelNumber + 1)) with
    | none => none
    | some l => some { currentLevelNumber := if s.currentLevelNumber + 1 > LEVEL_MAX then LEVEL_MAX
                                             else s.currentLevelNumber + 1,
                       moves := [], curLev := l }
  else some s

/-- A level whose grid really is a w-by-h array of columns. -/
def WellShaped (l : Level) : Prop :=
  l.grid.length = l.w ∧ ∀ col ∈ l.grid, col.length = l.h

instance (l : Level) : Decidable (WellShaped l) := by
  unfold WellShaped; infer_instance

/-- Player coordinates inside the w-by-h grid. -/
def InBounds (l : Level) : Prop :=
  0 ≤ l.px ∧ l.px < (l.w : Int) ∧ 0 ≤ l.py ∧ l.py < (l.h : Int)

instance (l : Level) : Decidable (InBounds l) := by
  unfold InBounds; infer_instance

/-- Well-formed level buffer, per the spec's data model: long enough to carry
the header and trailer, and the player start position recorded in the last two
bytes lies inside the advertised w-by-h grid. -/
def WellFormedBuffer (buf : List Nat) : Prop :=
  4 ≤ buf.length ∧
  buf.getD (buf.length - 2) 0 < buf.getD 0 0 ∧
  buf.getD (buf.length - 1) 0 < buf.getD 1 0

instance (buf : List Nat) : Decidable (WellFormedBuffer buf) := by
  unfold WellFormedBuffer; infer_instance

/-- The 2-by-2 demonstration buffer from the spec: walls at two corners,
player at (1,1). -/
def demoBuf : List Nat := [2, 2, 32, 16, 1, 1]

/-- The level decoded from demoBuf. -/
def demoLevel : Level :=
  { w := 2, h := 2, px := 1, py := 1, psprite := PLAYERUP,
    zfactor := (screenTransform 2 2).1, sx := (screenTransform 2 2).2.1,
    sy := (screenTransform 2 2).2.2,
    grid := [[WALL, EMPTY], [EMPTY, WALL]] }

/-- A 3-by-1 level with the player at (0,0), a box at (1,0) and an empty cell
at (2,0): pushing right succeeds. -/
def lvlPush : Level :=
  { w := 3, h := 1, px := 0, py := 0, psprite := PLAYERUP,
    zfactor := 0, sx := 0, sy := 0,
    grid := [[EMPTY], [BOX], [EMPTY]] }

/-- The level lvlPush after a successful push to the right. -/
def lvlPushAfter : Level :=
  { w := 3, h := 1, px := 1, py := 0, psprite := PLAYERUP,
    zfactor := 0, sx := 0, sy := 0,
    grid := [[EMPTY], [EMPTY], [BOX]] }

/-- A 2-by-1 level with the player at (0,0) and a wall at (1,0): moving right
is rejected. -/
def lvlWall : Level :=
  { w := 2, h := 1, px := 0, py := 0, psprite := PLAYERUP,
    zfactor := 0, sx := 0, sy := 0,
    grid := [[EMPTY], [WALL]] }

/-- A 1-by-1 level holding only the player: any move steps outside the grid. -/
def lvlTiny : Level :=
  { w := 1, h := 1, px := 0, py := 0, psprite := PLAYERUP,
    zfactor := 0, sx := 0, sy := 0,
    grid := [[EMPTY]] }

/-- A constant level corpus serving demoBuf at every index. -/
def demoLevels : Nat → List Nat := fun _ => demoBuf

/-! Basic facts about bit access. -/

theorem drop_cons_of_get? {α : Type _} {l : List α} {i : Nat} {a : α}
    (h : l.get? i = some a) : l.drop i = a :: l.drop (i + 1) := by
  obtain ⟨hi, hv⟩ := List.get?_eq_some.mp h
  rw [List.drop_eq_get_cons hi, hv]

theorem drop_nil_of_get? {α : Type _} {l : List α} {i : Nat}
    (h : l.get? i = none) : l.drop i = [] :=
  List.drop_eq_nil_of_le (List.get?_eq_none.mp h)

/-! Correspondence between the index-based readers of the source and the
stream-based rules written from the spec. -/

theorem specReadRun_drop (bits : List Bool) (i : Nat) :
    specReadRun (bits.drop i) = (readCounter bits i).map (fun cj => (cj.1, bits.drop cj.2)) := by
  cases hb : bits.get? i with
  | none =>
    rw [drop_nil_of_get? hb]
    unfold readCounter
    rw [hb]
    exact rfl
  | some b =>
    have hdi : bits.drop i = b :: bits.drop (i + 1) := drop_cons_of_get? hb
    cases b with
    | false => rw [hdi]; unfold readCounter; rw [hb]; exact rfl
    | true =>
      cases hb1 : bits.get? (i + 1) with
      | none =>
        have hd1 : bits.drop (i + 1) = [] := drop_nil_of_get? hb1
        rw [hdi, hd1]
        unfold readCounter
        rw [hb, hb1]
        exact rfl
      | some d3 =>
        have hd1 : bits.drop (i + 1) = d3 :: bits.drop (i + 2) := drop_cons_of_get? hb1
        cases hb2 : bits.get? (i + 2) with
        | none =>
          have hd2 : bits.drop (i + 2) = [] := drop_nil_of_get? hb2
          rw [hdi, hd1, hd2]
          unfold readCounter
          rw [hb, hb1, hb2]
          cases d3 <;> exact rfl
        | some d2 =>
          have hd2 : bits.drop (i + 2) = d2 :: bits.drop (i + 3) := drop_cons_of_get? hb2
          cases hb3 : bits.get? (i + 3) with
          | none =>
            have hd3 : bits.drop (i + 3) = [] := drop_nil_of_get? hb3
            rw [hdi, hd1, hd2, hd3]
            unfold readCounter
            rw [hb, hb1, hb2, hb3]
            cases d3 <;> cases d2 <;> exact rfl
          | some d1 =>
            have hd3 : bits.drop (i + 3) = d1 :: bits.drop (i + 4) := drop_cons_of_get? hb3
            rw [hdi, hd1, hd2, hd3]
            unfold readCounter
            rw [hb, hb1, hb2, hb3]
            cases d3 <;> cases d2 <;> cases d1 <;> exact rfl

theorem specReadSym_drop (bits : List Bool) (i : Nat) :
    specReadSym (bits.drop i) = (readObject bits i).map (fun oj => (oj.1, bits.drop oj.2)) := by
  cases hb : bits.get? i with
  | none =>
    rw [drop_nil_of_get? hb]
    unfold readObject
    rw [hb]
    exact rfl
  | some b =>
    have hdi : bits.drop i = b :: bits.drop (i + 1) := drop_cons_of_get? hb
    cases hb1 : bits.get? (i + 1) with
    | none =>
      have hd1 : bits.drop (i + 1) = [] := drop_nil_of_get? hb1
      rw [hdi, hd1]
      unfold readObject
      rw [hb, hb1]
      cases b <;> exact rfl
    | some b1 =>
      have hd1 : bits.drop (i + 1) = b1 :: bits.drop (i + 2) := drop_cons_of_get? hb1
      cases b with
      | false =>
        rw [hdi, hd1]
        unfold readObject
        rw [hb, hb1]
        cases b1 <;> exact rfl
      | true =>
        cases b1 with
        | false =>
          rw [hdi, hd1]
          unfold readObject
          rw [hb, hb1]
          exact rfl
        | true =>
          cases hb2 : bits.get? (i + 2) with
          | none =>
            have hd2 : bits.drop (i + 2) = [] := drop_nil_of_get? hb2
            rw [hdi, hd1, hd2]
            unfold readObject
            rw [hb, hb1, hb2]
            exact rfl
          | some b2 =>
            have hd2 : bits.drop (i + 2) = b2 :: bits.drop (i + 3) := drop_cons_of_get? hb2
            rw [hdi, hd1, hd2]
            unfold readObject
            rw [hb, hb1, hb2]
            cases b2 <;> exact rfl

theorem decodeLoop_eq_specDecode_aux (bits : List Bool) (target : Nat) :
    ∀ (fuel i : Nat) (grid : List Nat),
      decodeLoop bits target fuel i grid = specDecode target fuel (bits.drop i) grid := by
  intro fuel
  induction fuel with
  | zero => intro i grid; rfl
  | succ n ih =>
    intro i grid
    by_cases hlen : grid.length = target
    · simp only [decodeLoop, specDecode, if_pos hlen]
    · have hs := specReadRun_drop bits i
      cases hc : readCounter bits i with
      | none =>
        rw [hc, Option.map_none'] at hs
        simp only [decodeLoop, specDecode, if_neg hlen, hc, hs]
      | some ci =>
        rw [hc, Option.map_some'] at hs
        have hs2 := specReadSym_drop bits ci.2
        cases ho : readObject bits ci.2 with
        | none =>
          rw [ho, Option.map_none'] at hs2
          simp only [decodeLoop, specDecode, if_neg hlen, hc, hs, ho, hs2]
        | some oi =>
          rw [ho, Option.map_some'] at hs2
          simp only [decodeLoop, specDecode, if_neg hlen, hc, hs, ho, hs2]
          exact ih oi.2 (grid ++ List.replicate ci.1 oi.1)

theorem decodeLoop_ok_length (bits : List Bool) (target : Nat) :
    ∀ (fuel i : Nat) (grid flat : List Nat),
      decodeLoop bits target fuel i grid = DecodeResult.ok flat → flat.length = target := by
  intro fuel
  induction fuel with
  | zero => intro i grid flat h; exact absurd h (by simp [decodeLoop])
  | succ n ih =>
    intro i grid flat h
    rw [decodeLoop] at h
    split at h
    · cases h; assumption
    · split at h
      · cases h
      · split at h
        · cases h
        · exact ih _ _ _ h

theorem readCounter_bounds {bits : List Bool} {i : Nat} {ci : Nat × Nat}
    (h : readCounter bits i = some ci) : i < bits.length ∧ i + 1 ≤ ci.2 := by
  unfold readCounter at h
  cases hb : bits.get? i <;> rw [hb] at h
  · cases h
  · have hi : i < bits.length := (List.get?_eq_some.mp hb).1
    refine ⟨hi, ?_⟩
    rename_i b
    cases b
    · cases h; omega
    · cases hb1 : bits.get? (i + 1) <;> rw [hb1] at h
      · cases h
      · cases hb2 : bits.get? (i + 2) <;> rw [hb2] at h
        · cases h
        · cases hb3 : bits.get? (i + 3) <;> rw [hb3] at h
          · cases h
          · cases h; omega

theorem readObject_bounds {bits : List Bool} {i : Nat} {oi : Nat × Nat}
    (h : readObject bits i = some oi) : i + 2 ≤ oi.2 := by
  unfold readObject at h
  cases hb : bits.get? i <;> rw [hb] at h
  · cases h
  · rename_i b
    cases hb1 : bits.get? (i + 1) <;> rw [hb1] at h
    · cases b <;> cases h
    · rename_i b1
      cases b
      · cases b1 <;> cases h <;> omega
      · cases b1
        · cases h; omega
        · cases hb2 : bits.get? (i + 2) <;> rw [hb2] at h
          · cases h
          · rename_i b2
            cases b2 <;> cases h <;> omega

theorem decodeLoop_halts (bits : List Bool) (target : Nat) :
    ∀ (n i : Nat) (grid : List Nat), bits.length - i < n →
      decodeLoop bits target n i grid ≠ DecodeResult.outOfFuel := by
  intro n
  induction n with
  | zero => intro i grid h; omega
  | succ m ih =>
    intro i grid hm
    rw [decodeLoop]
    by_cases hlen : grid.length = target
    · simp only [if_pos hlen]
      intro hx; cases hx
    · simp only [if_neg hlen]
      cases hc : readCounter bits i with
      | none => intro hx; cases hx
      | some ci =>
        cases ho : readObject bits ci.2 with
        | none => simp only [ho]; intro hx; cases hx
        | some oi =>
          simp only [ho]
          have h1 := readCounter_bounds hc
          have h2 := readObject_bounds ho
          exact ih oi.2 (grid ++ List.replicate ci.1 oi.1) (by omega)

/-- C1: the decoder reads the level bitstream as a sequence of (runLength,
tileSymbol) pairs per the grammar of the spec — a leading 0 bit gives run
length 1, a leading 1 bit followed by d3 d2 d1 gives 2 + d3*4 + d2*2 + d1
(range 2..9), and the symbol after is 00 Empty, 01 Wall, 10 Box (exactly two
bits), 110 Goal, 111 PlacedBox — each symbol emitted runLength times: the
index-based decode loop of the source coincides, for every bitstream, target
and fuel, with the stream decoder specDecode built from the spec's rules
specReadRun and specReadSym. -/
theorem decodeLoop_follows_rle_grammar (bits : List Bool) (target fuel : Nat) :
    decodeLoop bits target fuel 0 [] = specDecode target fuel bits [] := by
  have h := decodeLoop_eq_specDecode_aux bits target fuel 0 []
  rwa [List.drop_zero] at h

/-- C8 counterexample: for the one-byte bitstream 0xF0 with target 2 the first
run already emits 8 tiles, so the emitted count can never equal 2; the claim
says the loop then fails to terminate, but in fact the finite bitstream runs
out and the loop halts with an out-of-range bit access (a Go abort, fault in
this model) after finitely many steps. -/
theorem decodeLoop_overshoot_faults :
    decodeLoop (bytesToBits [240]) 2 100 0 [] = DecodeResult.fault ∧
    DecodeResult.fault ≠ DecodeResult.outOfFuel :=
  ⟨by decide, by decide⟩

/-- C8 (amended): the emitted-count test is the decode loop's sole success
exit — any successful result has exactly target tiles, and when the spec-level
parse of the whole bitstream reaches exactly target tiles the loop succeeds
with those very tiles — but a stream whose runs never hit the target does not
loop forever: the bitstream is finite, so with enough fuel the loop always
ends, in success or in an out-of-range bit access. -/
theorem decodeLoop_termination (bits : List Bool) (target : Nat) :
    (∀ fuel i grid flat, decodeLoop bits target fuel i grid = DecodeResult.ok flat →
      flat.length = target) ∧
    (∀ fuel flat, specDecode target fuel bits [] = DecodeResult.ok flat →
      decodeLoop bits target fuel 0 [] = DecodeResult.ok flat ∧ flat.length = target) ∧
    (∀ i grid, ∃ fuel, decodeLoop bits target fuel i grid ≠ DecodeResult.outOfFuel) := by
  refine ⟨fun fuel i grid flat h => decodeLoop_ok_length bits target fuel i grid flat h, ?_, ?_⟩
  · intro fuel flat h
    have he := decodeLoop_eq_specDecode_aux bits target fuel 0 []
    rw [List.drop_zero] at he
    rw [he]
    refine ⟨h, ?_⟩
    apply decodeLoop_ok_length bits target fuel 0 [] flat
    rw [he]
    exact h
  · intro i grid
    exact ⟨bits.length - i + 1,
      decodeLoop_halts bits target (bits.length - i + 1) i grid (by omega)⟩

/-- Witness for decodeLoop_termination: the demonstration bitstream decodes to
exactly four tiles for target 4. -/
theorem decodeLoop_termination_witness :
    decodeLoop (bytesToBits [32, 16]) 4 20 0 [] = DecodeResult.ok [WALL, EMPTY, EMPTY, WALL] ∧
    ([WALL, EMPTY, EMPTY, WALL] : List Nat).length = 4 :=
  ⟨by decide,
   (decodeLoop_termination (bytesToBits [32, 16]) 4).1 20 0 [] [WALL, EMPTY, EMPTY, WALL]
     (by decide)⟩

/-! Bitstream layout of the byte body, most significant bit first. -/

theorem byteBits_length (b : Nat) : (byteBits b).length = 8 := rfl

theorem byteBits_get? (b : Nat) (j : Nat) (hj : j < 8) :
    (byteBits b).get? j = some (Nat.testBit b (7 - j)) := by
  interval_cases j <;> exact rfl

theorem bytesToBits_get? :
    ∀ (bs : List Nat) (k j b : Nat), bs.get? k = some b → j < 8 →
      (bytesToBits bs).get? (8 * k + j) = some (Nat.testBit b (7 - j)) := by
  intro bs
  induction bs with
  | nil => intro k j b hk _; exact absurd hk (by simp)
  | cons c cs ih =>
    intro k j b hk hj
    have hb : bytesToBits (c :: cs) = byteBits c ++ bytesToBits cs := rfl
    cases k with
    | zero =>
      have hc : c = b := by
        have : some c = some b := hk
        injection this
      subst hc
      have hjj : 8 * 0 + j = j := by omega
      rw [hb, hjj, List.get?_append (by rw [byteBits_length]; exact hj)]
      exact byteBits_get? c j hj
    | succ k =>
      have hk' : cs.get? k = some b := hk
      rw [hb, List.get?_append_right (by rw [byteBits_length]; omega)]
      have hidx : 8 * (k + 1) + j - (byteBits c).length = 8 * k + j := by
        rw [byteBits_length]; omega
      rw [hidx]
      exact ih k j b hk' hj

/-! Inversion of decompressLevel and the flat-to-grid mapping. -/

theorem decompressLevel_inv {fuel : Nat} {level : List Nat} {l : Level}
    (h : decompressLevel fuel level = some l) :
    ∃ w hgt pxb pyb flat,
      level.get? 0 = some w ∧ level.get? 1 = some hgt ∧
      level.get? (level.length - 2) = some pxb ∧ level.get? (level.length - 1) = some pyb ∧
      decodeLoop (bytesToBits ((level.drop 2).take (level.length - 4))) (w * hgt) fuel 0 []
        = DecodeResult.ok flat ∧
      l = { w := w, h := hgt, px := (pxb : Int), py := (pyb : Int), psprite := PLAYERUP,
            zfactor := (screenTransform w hgt).1, sx := (screenTransform w hgt).2.1,
            sy := (screenTransform w hgt).2.2,
            grid := (List.range w).map
              (fun x => (List.range hgt).map (fun y => flat.getD (y * w + x) 0)) } := by
  unfold decompressLevel at h
  split at h
  · split at h
    · rename_i w hgt pxb pyb hw hh hpx hpy xr flat hflat
      cases h
      exact ⟨w, hgt, pxb, pyb, flat, hw, hh, hpx, hpy, hflat, rfl⟩
    · cases h
  · cases h

theorem gridGet_natCast (g : List (List Nat)) (x y : Nat) :
    gridGet g (x : Int) (y : Int) = gridGetN g x y := by
  unfold gridGet gridGetN idx?
  simp [Int.toNat_natCast]

theorem decodedGrid_get {w hgt : Nat} {flat : List Nat} (hlen : flat.length = w * hgt)
    {p : Nat} (hp : p < w * hgt) :
    gridGet ((List.range w).map (fun x => (List.range hgt).map (fun y => flat.getD (y * w + x) 0)))
      ((p % w : Nat) : Int) ((p / w : Nat) : Int) = flat.get? p := by
  have hw : 0 < w := by
    rcases Nat.eq_zero_or_pos w with hw0 | hw0
    · subst hw0; omega
    · exact hw0
  have hx : p % w < w := Nat.mod_lt _ hw
  have hy : p / w < hgt := by
    rw [Nat.div_lt_iff_lt_mul hw, Nat.mul_comm]
    exact hp
  rw [gridGet_natCast]
  unfold gridGetN
  rw [List.get?_map, List.get?_range hx]
  simp only [Option.map_some', Option.some_bind]
  rw [List.get?_map, List.get?_range hy]
  simp only [Option.map_some']
  have hpw : p / w * w + p % w = p := Nat.div_add_mod' p w
  rw [hpw, List.getD_eq_getD_get?]
  cases hfp : flat.get? p with
  | none =>
    have := List.get?_eq_none.mp hfp
    omega
  | some v => rfl

/-- C2: for every successfully decoded buffer, the width comes from byte 0,
the height from byte 1, the player position from the last two bytes; the bytes
in the interval [2, len-2) are read as a bitstream most-significant-bit first;
and the flat decoded tile at 0-indexed position p is stored at
grid[p mod w][p div w]. -/
theorem decompressLevel_layout {fuel : Nat} {level : List Nat} {l : Level}
    (h : decompressLevel fuel level = some l) :
    ∃ flat : List Nat,
      (∃ w, level.get? 0 = some w ∧ l.w = w) ∧
      (∃ hgt, level.get? 1 = some hgt ∧ l.h = hgt) ∧
      (∃ pxb, level.get? (level.length - 2) = some pxb ∧ l.px = (pxb : Int)) ∧
      (∃ pyb, level.get? (level.length - 1) = some pyb ∧ l.py = (pyb : Int)) ∧
      decodeLoop (bytesToBits ((level.drop 2).take (level.length - 4))) (l.w * l.h) fuel 0 []
        = DecodeResult.ok flat ∧
      flat.length = l.w * l.h ∧
      (∀ (k j b : Nat), ((level.drop 2).take (level.length - 4)).get? k = some b → j < 8 →
        (bytesToBits ((level.drop 2).take (level.length - 4))).get? (8 * k + j)
          = some (Nat.testBit b (7 - j))) ∧
      (∀ p : Nat, p < l.w * l.h →
        gridGet l.grid ((p % l.w : Nat) : Int) ((p / l.w : Nat) : Int) = flat.get? p) := by
  obtain ⟨w, hgt, pxb, pyb, flat, hw, hh, hpx, hpy, hflat, rfl⟩ := decompressLevel_inv h
  have hlen : flat.length = w * hgt := decodeLoop_ok_length _ _ _ _ _ _ hflat
  refine ⟨flat, ⟨w, hw, rfl⟩, ⟨hgt, hh, rfl⟩, ⟨pxb, hpx, rfl⟩, ⟨pyb, hpy, rfl⟩,
    hflat, hlen, ?_, ?_⟩
  · intro k j b hk hj
    exact bytesToBits_get? _ k j b hk hj
  · intro p hp
    exact decodedGrid_get hlen hp

/-- Witness for decompressLevel_layout at the spec's 2-by-2 demonstration
buffer. -/
theorem decompressLevel_layout_witness :
    ∃ flat : List Nat,
      (∃ w, demoBuf.get? 0 = some w ∧ demoLevel.w = w) ∧
      (∃ hgt, demoBuf.get? 1 = some hgt ∧ demoLevel.h = hgt) ∧
      (∃ pxb, demoBuf.get? (demoBuf.length - 2) = some pxb ∧ demoLevel.px = (pxb : Int)) ∧
      (∃ pyb, demoBuf.get? (demoBuf.length - 1) = some pyb ∧ demoLevel.py = (pyb : Int)) ∧
      decodeLoop (bytesToBits ((demoBuf.drop 2).take (demoBuf.length - 4)))
        (demoLevel.w * demoLevel.h) 20 0 [] = DecodeResult.ok flat ∧
      flat.length = demoLevel.w * demoLevel.h ∧
      (∀ (k j b : Nat), ((demoBuf.drop 2).take (demoBuf.length - 4)).get? k = some b → j < 8 →
        (bytesToBits ((demoBuf.drop 2).take (demoBuf.length - 4))).get? (8 * k + j)
          = some (Nat.testBit b (7 - j))) ∧
      (∀ p : Nat, p < demoLevel.w * demoLevel.h →
        gridGet demoLevel.grid ((p % demoLevel.w : Nat) : Int) ((p / demoLevel.w : Nat) : Int)
          = flat.get? p) :=
  @decompressLevel_layout 20 demoBuf demoLevel rfl

/-! Facts about grid reads and writes. -/

theorem gridGet_some_iff {g : List (List Nat)} {x y : Int} {v : Nat} :
    gridGet g x y = some v ↔ 0 ≤ x ∧ 0 ≤ y ∧ gridGetN g x.toNat y.toNat = some v := by
  unfold gridGet gridGetN idx?
  by_cases hx : 0 ≤ x
  · rw [if_pos hx]
    by_cases hy : 0 ≤ y
    · simp only [if_pos hy, hx, hy, true_and, if_true]
    · simp only [if_neg hy, hx, hy, false_and, and_false, iff_false]
      intro hc
      cases hcol : g.get? x.toNat <;> rw [hcol] at hc <;> cases hc
  · rw [if_neg hx]
    simp only [Option.none_bind, hx, false_and, iff_false]
    intro hc
    cases hc

theorem gridGetN_col {g : List (List Nat)} {x y v : Nat}
    (h : gridGetN g x y = some v) :
    ∃ col, g.get? x = some col ∧ col.get? y = some v := by
  unfold gridGetN at h
  cases hcol : g.get? x with
  | none => rw [hcol] at h; cases h
  | some col =>
    rw [hcol] at h
    simp only [Option.some_bind] at h
    exact ⟨col, rfl, h⟩

theorem gridGetN_bounds {g : List (List Nat)} {x y v : Nat} {w hh : Nat}
    (hw : g.length = w) (hc : ∀ col ∈ g, col.length = hh)
    (h : gridGetN g x y = some v) : x < w ∧ y < hh := by
  obtain ⟨col, hcol, hcy⟩ := gridGetN_col h
  have hx := (List.get?_eq_some.mp hcol).1
  have hy := (List.get?_eq_some.mp hcy).1
  have := hc col (List.get?_mem hcol)
  omega

theorem gridGet_bounds {l : Level} {x y : Int} {v : Nat}
    (hs : WellShaped l) (h : gridGet l.grid x y = some v) :
    0 ≤ x ∧ 0 ≤ y ∧ x.toNat < l.w ∧ y.toNat < l.h ∧ x < (l.w : Int) ∧ y < (l.h : Int) := by
  obtain ⟨hx, hy, hn⟩ := gridGet_some_iff.mp h
  obtain ⟨hxw, hyh⟩ := gridGetN_bounds hs.1 hs.2 hn
  exact ⟨hx, hy, hxw, hyh, by omega, by omega⟩

theorem gridSet_length (g : List (List Nat)) (x y : Int) (v : Nat) :
    (gridSet g x y v).length = g.length := by
  unfold gridSet
  split
  · simp [List.length_set]
  · rfl

theorem gridSet_cols {g : List (List Nat)} {x y : Int} {v : Nat} {hh : Nat}
    (hc : ∀ col ∈ g, col.length = hh) :
    ∀ col ∈ gridSet g x y v, col.length = hh := by
  unfold gridSet
  split
  · rename_i hcond
    intro col hmem
    rcases List.mem_or_eq_of_mem_set hmem with hmem' | rfl
    · exact hc col hmem'
    · rw [List.length_set]
      apply hc
      have : g.getD x.toNat [] ∈ g := by
        rw [List.getD_eq_getElem _ _ hcond.2.2]
        exact List.getElem_mem _
      exact this
  · exact hc

theorem gridGet_gridSet_self {g : List (List Nat)} {x y : Int} {v u : Nat}
    (h : gridGet g x y = some v) :
    gridGet (gridSet g x y u) x y = some u := by
  obtain ⟨hx, hy, hn⟩ := gridGet_some_iff.mp h
  obtain ⟨col, hcol, hcy⟩ := gridGetN_col hn
  have hxl : x.toNat < g.length := (List.get?_eq_some.mp hcol).1
  have hyl : y.toNat < col.length := (List.get?_eq_some.mp hcy).1
  rw [gridGet_some_iff]
  refine ⟨hx, hy, ?_⟩
  unfold gridSet
  rw [if_pos ⟨hx, hy, hxl⟩]
  unfold gridGetN
  rw [List.get?_set_eq_of_lt _ hxl]
  simp only [Option.some_bind]
  have hgd : g.getD x.toNat [] = col := by
    rw [List.getD_eq_getD_get?, hcol]
    rfl
  rw [hgd, List.get?_set_eq_of_lt _ hyl]

theorem gridGet_gridSet_ne {g : List (List Nat)} {x y x' y' : Int} {u : Nat}
    (hne : (x', y') ≠ (x, y)) :
    gridGet (gridSet g x y u) x' y' = gridGet g x' y' := by
  unfold gridSet
  split
  · rename_i hcond
    obtain ⟨hx, hy, hxl⟩ := hcond
    unfold gridGet idx?
    by_cases hx' : 0 ≤ x'
    · simp only [if_pos hx']
      by_cases hxx : x'.toNat = x.toNat
      · have hxeq : x' = x := by omega
        have hyy : y' ≠ y := by
          intro hc
          exact hne (by rw [hxeq, hc])
        rw [hxx]
        rw [List.get?_set_eq_of_lt _ hxl]
        cases hcol : g.get? x.toNat with
        | none =>
          exact absurd (List.get?_eq_none.mp hcol) (by omega)
        | some col =>
          simp only [Option.some_bind]
          have hgd : g.getD x.toNat [] = col := by
            rw [List.getD_eq_getD_get?, hcol]
            rfl
          rw [hgd]
          by_cases hy' : 0 ≤ y'
          · simp only [if_pos hy']
            rw [List.get?_set_ne _ _ (by omega : y.toNat ≠ y'.toNat)]
          · simp only [if_neg hy']
      · rw [List.get?_set_ne _ _ (fun hc => hxx hc.symm)]
    · simp only [if_neg hx']
  · rfl

/-- Inversion of handleMove: a completed move attempt keeps every non-grid
field except the player position, and either changes nothing, walks one step,
or pushes with the two-cell grid update of the source. -/
theorem handleMove_main {dx dy : Int} {l l' : Level} (h : handleMove dx dy l = some l') :
    l'.w = l.w ∧ l'.h = l.h ∧ l'.psprite = l.psprite ∧ l'.zfactor = l.zfactor ∧
    l'.sx = l.sx ∧ l'.sy = l.sy ∧
    ((l'.px = l.px ∧ l'.py = l.py ∧ l'.grid = l.grid) ∨
     (l'.px = l.px + dx ∧ l'.py = l.py + dy ∧
      (∃ v, gridGet l.grid (l.px + dx) (l.py + dy) = some v) ∧
      (l'.grid = l.grid ∨
       ∃ t bb : Nat, gridGet l.grid (l.px + dx) (l.py + dy) = some t ∧
         gridGet l.grid (l.px + 2 * dx) (l.py + 2 * dy) = some bb ∧
         (t = BOX ∨ t = PLACED_BOX) ∧ (bb = EMPTY ∨ bb = GOAL) ∧
         l'.grid = gridSet (gridSet l.grid (l.px + dx) (l.py + dy)
                     (if t = PLACED_BOX then GOAL else EMPTY))
                   (l.px + 2 * dx) (l.py + 2 * dy)
                   (if bb = GOAL then PLACED_BOX else BOX)))) := by
  unfold handleMove at h
  split at h
  · cases h
  · rename_i moveOnce hmo
    split at h
    · cases h
      exact ⟨rfl, rfl, rfl, rfl, rfl, rfl, Or.inr ⟨rfl, rfl, ⟨moveOnce, hmo⟩, Or.inl rfl⟩⟩
    · split at h
      · rename_i htv
        split at h
        · cases h
        · rename_i moveTwice hmt
          split at h
          · rename_i hE
            cases h
            subst hE
            refine ⟨rfl, rfl, rfl, rfl, rfl, rfl,
              Or.inr ⟨rfl, rfl, ⟨moveOnce, hmo⟩,
                Or.inr ⟨moveOnce, EMPTY, hmo, hmt, htv, Or.inl rfl, ?_⟩⟩⟩
            norm_num [EMPTY, GOAL]
          · split at h
            · rename_i hnE hG
              cases h
              subst hG
              refine ⟨rfl, rfl, rfl, rfl, rfl, rfl,
                Or.inr ⟨rfl, rfl, ⟨moveOnce, hmo⟩,
                  Or.inr ⟨moveOnce, GOAL, hmo, hmt, htv, Or.inr rfl, ?_⟩⟩⟩
              norm_num [GOAL]
            · cases h
              exact ⟨rfl, rfl, rfl, rfl, rfl, rfl, Or.inl ⟨rfl, rfl, rfl⟩⟩
      · cases h
        exact ⟨rfl, rfl, rfl, rfl, rfl, rfl, Or.inl ⟨rfl, rfl, rfl⟩⟩

/-- Writing one in-range cell shifts the per-tile count by the indicators of
the old and new values. -/
theorem countTile_gridSet {g : List (List Nat)} {w hh : Nat} {x y : Int} {v : Nat}
    (u t : Nat) (hg : gridGet g x y = some v) (hxw : x.toNat < w) (hyh : y.toNat < hh) :
    countTile (gridSet g x y u) w hh t + (if v = t then 1 else 0)
      = countTile g w hh t + (if u = t then 1 else 0) := by
  obtain ⟨hx, hy, hn⟩ := gridGet_some_iff.mp hg
  have hself : gridGet (gridSet g x y u) x y = some u := gridGet_gridSet_self hg
  obtain ⟨hx', hy', hn'⟩ := gridGet_some_iff.mp hself
  have hpoint : ∀ a b : Nat, (a, b) ≠ (x.toNat, y.toNat) →
      gridGetN (gridSet g x y u) a b = gridGetN g a b := by
    intro a b hab
    have h1 : ((a : Int), (b : Int)) ≠ (x, y) := by
      intro hc
      apply hab
      rw [Prod.mk.injEq] at hc ⊢
      omega
    have h2 : gridGet (gridSet g x y u) (a : Int) (b : Int) = gridGet g (a : Int) (b : Int) :=
      gridGet_gridSet_ne h1
    rw [gridGet_natCast, gridGet_natCast] at h2
    exact h2
  have hAmem : x.toNat ∈ Finset.range w := Finset.mem_range.mpr hxw
  have hBmem : y.toNat ∈ Finset.range hh := Finset.mem_range.mpr hyh
  have houter1 :
      countTile (gridSet g x y u) w hh t
        = (∑ a in Finset.range w \ {x.toNat}, ∑ b in Finset.range hh,
            if gridGetN (gridSet g x y u) a b = some t then 1 else 0)
          + (∑ b in Finset.range hh,
              if gridGetN (gridSet g x y u) x.toNat b = some t then 1 else 0) :=
    Finset.sum_eq_sum_diff_singleton_add hAmem _
  have houter2 :
      countTile g w hh t
        = (∑ a in Finset.range w \ {x.toNat}, ∑ b in Finset.range hh,
            if gridGetN g a b = some t then 1 else 0)
          + (∑ b in Finset.range hh, if gridGetN g x.toNat b = some t then 1 else 0) :=
    Finset.sum_eq_sum_diff_singleton_add hAmem _
  have hsame1 :
      (∑ a in Finset.range w \ {x.toNat}, ∑ b in Finset.range hh,
        if gridGetN (gridSet g x y u) a b = some t then 1 else 0)
      = ∑ a in Finset.range w \ {x.toNat}, ∑ b in Finset.range hh,
          if gridGetN g a b = some t then 1 else 0 := by
    apply Finset.sum_congr rfl
    intro a ha
    have haA : a ≠ x.toNat := by
      have := (Finset.mem_sdiff.mp ha).2
      simpa using this
    apply Finset.sum_congr rfl
    intro b _
    rw [hpoint a b (by intro hc; rw [Prod.mk.injEq] at hc; exact haA hc.1)]
  have hinner1 :
      (∑ b in Finset.range hh, if gridGetN (gridSet g x y u) x.toNat b = some t then 1 else 0)
        = (∑ b in Finset.range hh \ {y.toNat},
            if gridGetN (gridSet g x y u) x.toNat b = some t then 1 else 0)
          + (if u = t then 1 else 0) := by
    rw [Finset.sum_eq_sum_diff_singleton_add hBmem]
    congr 1
    rw [hn']
    simp only [Option.some.injEq]
  have hinner2 :
      (∑ b in Finset.range hh, if gridGetN g x.toNat b = some t then 1 else 0)
        = (∑ b in Finset.range hh \ {y.toNat}, if gridGetN g x.toNat b = some t then 1 else 0)
          + (if v = t then 1 else 0) := by
    rw [Finset.sum_eq_sum_diff_singleton_add hBmem]
    congr 1
    rw [hn]
    simp only [Option.some.injEq]
  have hsame2 :
      (∑ b in Finset.range hh \ {y.toNat},
        if gridGetN (gridSet g x y u) x.toNat b = some t then 1 else 0)
        = ∑ b in Finset.range hh \ {y.toNat}, if gridGetN g x.toNat b = some t then 1 else 0 := by
    apply Finset.sum_congr rfl
    intro b hb
    have hbB : b ≠ y.toNat := by
      have := (Finset.mem_sdiff.mp hb).2
      simpa using this
    rw [hpoint x.toNat b (by intro hc; rw [Prod.mk.injEq] at hc; exact hbB hc.2)]
  omega

/-- Summing the per-index indicator over a column counts its cells equal to
the tile. -/
theorem sum_range_get? (t : Nat) :
    ∀ col : List Nat,
      (∑ b in Finset.range col.length, if col.get? b = some t then 1 else 0)
        = (col.filter (fun c => c == t)).length := by
  intro col
  induction col with
  | nil => simp
  | cons c cs ih =>
    rw [List.length_cons, Finset.sum_range_succ']
    simp only [List.get?_cons_succ, List.get?_cons_zero]
    rw [ih]
    by_cases hct : c = t
    · simp [List.filter_cons, hct]
    · simp [List.filter_cons, hct]

/-- The double counting loop agrees with a direct traversal of the columns. -/
theorem countTile_eq_cellCount (t : Nat) :
    ∀ (g : List (List Nat)) (hh : Nat), (∀ col ∈ g, col.length = hh) →
      countTile g g.length hh t
        = (g.map (fun col => (col.filter (fun c => c == t)).length)).sum := by
  intro g
  induction g with
  | nil => intro hh _; simp [countTile]
  | cons col g' ih =>
    intro hh hc
    rw [List.length_cons]
    unfold countTile
    rw [Finset.sum_range_succ']
    have h1 : ∀ a b : Nat, gridGetN (col :: g') (a + 1) b = gridGetN g' a b := fun a b => rfl
    have h2 : ∀ b : Nat, gridGetN (col :: g') 0 b = col.get? b := fun b => rfl
    simp only [h1, h2]
    have hcol : col.length = hh := hc col (List.mem_cons_self col g')
    rw [List.map_cons, List.sum_cons]
    have hrec := ih hh (fun c hm => hc c (List.mem_cons_of_mem _ hm))
    unfold countTile at hrec
    rw [hrec]
    have hY : (∑ b in Finset.range hh, if col.get? b = some t then 1 else 0)
        = (col.filter (fun c => c == t)).length := by
      rw [← hcol]
      exact sum_range_get? t col
    omega

/-- The source's box counter agrees, on a well-shaped level, with the direct
cell count written from the spec's words. -/
theorem nBoxesLeft_eq_boxCellCount {l : Level} (hs : WellShaped l) :
    nBoxesLeft l = boxCellCount l.grid := by
  unfold nBoxesLeft boxCellCount
  rw [← hs.1]
  exact countTile_eq_cellCount BOX l.grid l.h hs.2

/-- C3: when the cell one step from the player holds a Box or PlacedBox and
the cell two steps away is Empty or Goal, the move succeeds as a push: the
pushed-from cell becomes Empty (Goal when it held PlacedBox), the cell two
steps away becomes Box (PlacedBox when it was Goal), the player advances by
exactly one cell in the move direction, and no other cell changes. -/
theorem push_correct {dx dy : Int} {l : Level} {t b : Nat}
    (hd : (dx, dy) ≠ ((0 : Int), (0 : Int)))
    (ht : gridGet l.grid (l.px + dx) (l.py + dy) = some t)
    (htv : t = BOX ∨ t = PLACED_BOX)
    (hb : gridGet l.grid (l.px + 2 * dx) (l.py + 2 * dy) = some b)
    (hbv : b = EMPTY ∨ b = GOAL) :
    ∃ l', handleMove dx dy l = some l' ∧
      l'.px = l.px + dx ∧ l'.py = l.py + dy ∧
      gridGet l'.grid (l.px + dx) (l.py + dy)
        = some (if t = PLACED_BOX then GOAL else EMPTY) ∧
      gridGet l'.grid (l.px + 2 * dx) (l.py + 2 * dy)
        = some (if b = GOAL then PLACED_BOX else BOX) ∧
      (∀ x y : Int, (x, y) ≠ (l.px + dx, l.py + dy) →
        (x, y) ≠ (l.px + 2 * dx, l.py + 2 * dy) →
        gridGet l'.grid x y = gridGet l.grid x y) := by
  have hTB : ((l.px + dx, l.py + dy) : Int × Int) ≠ (l.px + 2 * dx, l.py + 2 * dy) := by
    intro hc
    rw [Prod.mk.injEq] at hc
    apply hd
    rw [Prod.mk.injEq]
    omega
  have hm : handleMove dx dy l = some { l with
      grid := gridSet (gridSet l.grid (l.px + dx) (l.py + dy)
                (if t = PLACED_BOX then GOAL else EMPTY))
              (l.px + 2 * dx) (l.py + 2 * dy)
              (if b = GOAL then PLACED_BOX else BOX),
      px := l.px + dx, py := l.py + dy } := by
    rcases htv with rfl | rfl <;> rcases hbv with rfl | rfl <;>
      simp [handleMove, ht, hb, BOX, PLACED_BOX, EMPTY, GOAL]
  refine ⟨_, hm, rfl, rfl, ?_, ?_, ?_⟩
  · rw [gridGet_gridSet_ne hTB]
    exact gridGet_gridSet_self ht
  · apply gridGet_gridSet_self
    rw [gridGet_gridSet_ne (Ne.symm hTB)]
    exact hb
  · intro x y h1 h2
    rw [gridGet_gridSet_ne h2, gridGet_gridSet_ne h1]

/-- Witness for push_correct: pushing the box to the right on the 3-by-1
level. -/
theorem push_correct_witness :
    ∃ l', handleMove 1 0 lvlPush = some l' ∧
      l'.px = lvlPush.px + 1 ∧ l'.py = lvlPush.py + 0 ∧
      gridGet l'.grid (lvlPush.px + 1) (lvlPush.py + 0)
        = some (if BOX = PLACED_BOX then GOAL else EMPTY) ∧
      gridGet l'.grid (lvlPush.px + 2 * 1) (lvlPush.py + 2 * 0)
        = some (if EMPTY = GOAL then PLACED_BOX else BOX) ∧
      (∀ x y : Int, (x, y) ≠ (lvlPush.px + 1, lvlPush.py + 0) →
        (x, y) ≠ (lvlPush.px + 2 * 1, lvlPush.py + 2 * 0) →
        gridGet l'.grid x y = gridGet lvlPush.grid x y) :=
  @push_correct 1 0 lvlPush BOX EMPTY (by decide) rfl (Or.inl rfl) rfl (Or.inl rfl)

/-- C4 counterexample: on the 1-by-1 level the cell one step to the right of
the player lies outside the grid; the claim says such an attempt is rejected
without a crash and still appended to the history, but the source reads the
out-of-range cell before any check, so the program aborts (none) and no
session with an extended history results. -/
theorem outOfBounds_move_aborts :
    attemptMove { currentLevelNumber := 0, moves := [], curLev := lvlTiny } RIGHT = none := rfl

/-- C4 (amended): when the target cell is in bounds and holds a Wall, or holds
a Box/PlacedBox with an in-bounds Wall, Box or PlacedBox beyond it, the move
attempt is rejected with no change to the grid or the player position, yet the
direction is appended to the move history and the facing sprite is set to the
direction. (The original claim also covered out-of-bounds targets; there the
program aborts instead, see the counterexample.) -/
theorem rejected_move_no_change {s : Session} {d : Nat}
    (hd : d = UP ∨ d = RIGHT ∨ d = DOWN ∨ d = LEFT)
    (hrej : gridGet s.curLev.grid (s.curLev.px + dirDx d) (s.curLev.py + dirDy d) = some WALL
      ∨ ∃ t b : Nat,
          gridGet s.curLev.grid (s.curLev.px + dirDx d) (s.curLev.py + dirDy d) = some t ∧
          (t = BOX ∨ t = PLACED_BOX) ∧
          gridGet s.curLev.grid (s.curLev.px + 2 * dirDx d) (s.curLev.py + 2 * dirDy d)
            = some b ∧
          (b = WALL ∨ b = BOX ∨ b = PLACED_BOX)) :
    attemptMove s d = some { currentLevelNumber := s.currentLevelNumber,
                             moves := s.moves ++ [d],
                             curLev := { s.curLev with psprite := dirSprite d } } := by
  have hstep : replayMove s.curLev d
      = handleMove (dirDx d) (dirDy d) { s.curLev with psprite := dirSprite d } := by
    rcases hd with rfl | rfl | rfl | rfl <;>
      norm_num [replayMove, dirDx, dirDy, dirSprite, UP, RIGHT, DOWN, LEFT]
  have hgr : ({ s.curLev with psprite := dirSprite d } : Level).grid = s.curLev.grid := rfl
  have hpx : ({ s.curLev with psprite := dirSprite d } : Level).px = s.curLev.px := rfl
  have hpy : ({ s.curLev with psprite := dirSprite d } : Level).py = s.curLev.py := rfl
  have hrej' : handleMove (dirDx d) (dirDy d) { s.curLev with psprite := dirSprite d }
      = some { s.curLev with psprite := dirSprite d } := by
    rcases hrej with hW | ⟨t, b, ht, htv, hb, hbv⟩
    · simp [handleMove, hgr, hpx, hpy, hW, WALL, EMPTY, GOAL, BOX, PLACED_BOX]
    · rcases htv with rfl | rfl <;> rcases hbv with rfl | rfl | rfl <;>
        simp [handleMove, hgr, hpx, hpy, ht, hb, WALL, EMPTY, GOAL, BOX, PLACED_BOX]
  unfold attemptMove
  rw [hstep, hrej']

/-- Witness for rejected_move_no_change: moving right into the wall on the
2-by-1 level is rejected but recorded. -/
theorem rejected_move_no_change_witness :
    attemptMove { currentLevelNumber := 0, moves := [], curLev := lvlWall } RIGHT
      = some { currentLevelNumber := 0, moves := [RIGHT],
               curLev := { lvlWall with psprite := PLAYERRI } } :=
  @rejected_move_no_change { currentLevelNumber := 0, moves := [], curLev := lvlWall } RIGHT
    (Or.inr (Or.inl rfl)) (Or.inl rfl)

/-- C7: the player position decoded from a well-formed buffer (one whose
trailer records a start inside the advertised w-by-h grid) lies inside
[0, w) x [0, h), and every completed move attempt preserves the bound (a move
attempt whose grid reads leave the grid aborts instead of completing; the
remaining operations install a freshly decoded level). -/
theorem player_in_bounds :
    (∀ (fuel : Nat) (buf : List Nat) (l : Level),
      WellFormedBuffer buf → decompressLevel fuel buf = some l → InBounds l) ∧
    (∀ (l l' : Level) (dx dy : Int),
      WellShaped l → InBounds l → handleMove dx dy l = some l' → InBounds l') := by
  constructor
  · intro fuel buf l hwf hdec
    obtain ⟨w, hgt, pxb, pyb, flat, hw, hh, hpx, hpy, hflat, rfl⟩ := decompressLevel_inv hdec
    obtain ⟨hlen4, hpxw, hpyh⟩ := hwf
    have e1 : buf.getD 0 0 = w := by rw [List.getD_eq_getD_get?, hw]; rfl
    have e2 : buf.getD 1 0 = hgt := by rw [List.getD_eq_getD_get?, hh]; rfl
    have e3 : buf.getD (buf.length - 2) 0 = pxb := by rw [List.getD_eq_getD_get?, hpx]; rfl
    have e4 : buf.getD (buf.length - 1) 0 = pyb := by rw [List.getD_eq_getD_get?, hpy]; rfl
    rw [e3, e1] at hpxw
    rw [e4, e2] at hpyh
    simp only [InBounds]
    omega
  · intro l l' dx dy hs hib h
    obtain ⟨hw, hh, -, -, -, -, hcase⟩ := handleMove_main h
    unfold InBounds at hib ⊢
    rw [hw, hh]
    rcases hcase with ⟨h1, h2, -⟩ | ⟨h1, h2, ⟨v, hv⟩, -⟩
    · rw [h1, h2]; exact hib
    · obtain ⟨hx, hy, -, -, hxw, hyh⟩ := gridGet_bounds hs hv
      rw [h1, h2]
      exact ⟨hx, hxw, hy, hyh⟩

/-- Witness for player_in_bounds: the decoded demonstration level and the
level after a completed push both keep the player inside the grid. -/
theorem player_in_bounds_witness : InBounds demoLevel ∧ InBounds lvlPushAfter :=
  ⟨player_in_bounds.1 20 demoBuf demoLevel (by decide) rfl,
   player_in_bounds.2 lvlPush lvlPushAfter 1 0 (by decide) (by decide) rfl⟩

/-- C9: every completed move attempt preserves the total number of box cells:
the count of grid cells equal to Box plus the count equal to PlacedBox is the
same before and after, whether the move is a plain step, a push, or a
rejection. -/
theorem move_preserves_box_count {dx dy : Int} {l l' : Level}
    (hs : WellShaped l) (hd : (dx, dy) ≠ ((0 : Int), (0 : Int)))
    (h : handleMove dx dy l = some l') :
    countTile l'.grid l.w l.h BOX + countTile l'.grid l.w l.h PLACED_BOX
      = countTile l.grid l.w l.h BOX + countTile l.grid l.w l.h PLACED_BOX := by
  obtain ⟨-, -, -, -, -, -, hcase⟩ := handleMove_main h
  rcases hcase with ⟨-, -, hg⟩ | ⟨-, -, -, hg | ⟨t, bb, ht, hb, htv, hbv, hg⟩⟩
  · rw [hg]
  · rw [hg]
  · have hTB : ((l.px + dx, l.py + dy) : Int × Int) ≠ (l.px + 2 * dx, l.py + 2 * dy) := by
      intro hc
      rw [Prod.mk.injEq] at hc
      apply hd
      rw [Prod.mk.injEq]
      omega
    obtain ⟨hx1, hy1, hxw1, hyh1, -, -⟩ := gridGet_bounds hs ht
    obtain ⟨hx2, hy2, hxw2, hyh2, -, -⟩ := gridGet_bounds hs hb
    have hmid : gridGet (gridSet l.grid (l.px + dx) (l.py + dy)
        (if t = PLACED_BOX then GOAL else EMPTY)) (l.px + 2 * dx) (l.py + 2 * dy)
        = some bb := by
      rw [gridGet_gridSet_ne (Ne.symm hTB)]
      exact hb
    have c1B := countTile_gridSet (if t = PLACED_BOX then GOAL else EMPTY) BOX ht hxw1 hyh1
    have c1P := countTile_gridSet (if t = PLACED_BOX then GOAL else EMPTY) PLACED_BOX ht hxw1 hyh1
    have c2B := countTile_gridSet (if bb = GOAL then PLACED_BOX else BOX) BOX hmid hxw2 hyh2
    have c2P := countTile_gridSet (if bb = GOAL then PLACED_BOX else BOX) PLACED_BOX hmid hxw2 hyh2
    have iT : (if t = BOX then (1 : Nat) else 0) + (if t = PLACED_BOX then 1 else 0) = 1 := by
      rcases htv with rfl | rfl <;> norm_num [BOX, PLACED_BOX]
    have iSV : (if (if t = PLACED_BOX then GOAL else EMPTY) = BOX then (1 : Nat) else 0)
        + (if (if t = PLACED_BOX then GOAL else EMPTY) = PLACED_BOX then 1 else 0) = 0 := by
      rcases htv with rfl | rfl <;> norm_num [BOX, PLACED_BOX, GOAL, EMPTY]
    have iB : (if bb = BOX then (1 : Nat) else 0) + (if bb = PLACED_BOX then 1 else 0) = 0 := by
      rcases hbv with rfl | rfl <;> norm_num [BOX, PLACED_BOX, GOAL, EMPTY]
    have iNV : (if (if bb = GOAL then PLACED_BOX else BOX) = BOX then (1 : Nat) else 0)
        + (if (if bb = GOAL then PLACED_BOX else BOX) = PLACED_BOX then 1 else 0) = 1 := by
      rcases hbv with rfl | rfl <;> norm_num [BOX, PLACED_BOX, GOAL, EMPTY]
    rw [hg]
    omega

/-- Witness for move_preserves_box_count at the concrete push. -/
theorem move_preserves_box_count_witness :
    countTile lvlPushAfter.grid lvlPush.w lvlPush.h BOX
      + countTile lvlPushAfter.grid lvlPush.w lvlPush.h PLACED_BOX
    = countTile lvlPush.grid lvlPush.w lvlPush.h BOX
      + countTile lvlPush.grid lvlPush.w lvlPush.h PLACED_BOX :=
  @move_preserves_box_count 1 0 lvlPush lvlPushAfter (by decide) (by decide) rfl

/-- C10: a single completed move attempt in direction (dx, dy) modifies at
most the two grid cells one and two steps from the player in that direction,
moves the player by at most one cell (exactly (dx, dy) or not at all), and
leaves every other grid cell and the level's width, height, zoom factor and
screen offsets unchanged. -/
theorem move_frame_condition {dx dy : Int} {l l' : Level}
    (h : handleMove dx dy l = some l') :
    l'.w = l.w ∧ l'.h = l.h ∧ l'.zfactor = l.zfactor ∧ l'.sx = l.sx ∧ l'.sy = l.sy ∧
    ((l'.px = l.px ∧ l'.py = l.py) ∨ (l'.px = l.px + dx ∧ l'.py = l.py + dy)) ∧
    (∀ x y : Int, (x, y) ≠ (l.px + dx, l.py + dy) → (x, y) ≠ (l.px + 2 * dx, l.py + 2 * dy) →
      gridGet l'.grid x y = gridGet l.grid x y) := by
  obtain ⟨hw, hh, hsp, hz, hsx, hsy, hcase⟩ := handleMove_main h
  refine ⟨hw, hh, hz, hsx, hsy, ?_, ?_⟩
  · rcases hcase with ⟨h1, h2, -⟩ | ⟨h1, h2, -, -⟩
    · exact Or.inl ⟨h1, h2⟩
    · exact Or.inr ⟨h1, h2⟩
  · intro x y hne1 hne2
    rcases hcase with ⟨-, -, hg⟩ | ⟨-, -, -, hg | ⟨t, bb, ht, hb, htv, hbv, hg⟩⟩
    · rw [hg]
    · rw [hg]
    · rw [hg, gridGet_gridSet_ne hne2, gridGet_gridSet_ne hne1]

/-- Witness for move_frame_condition at the concrete push. -/
theorem move_frame_condition_witness :
    lvlPushAfter.w = lvlPush.w ∧ lvlPushAfter.h = lvlPush.h ∧
    lvlPushAfter.zfactor = lvlPush.zfactor ∧ lvlPushAfter.sx = lvlPush.sx ∧
    lvlPushAfter.sy = lvlPush.sy ∧
    ((lvlPushAfter.px = lvlPush.px ∧ lvlPushAfter.py = lvlPush.py) ∨
     (lvlPushAfter.px = lvlPush.px + 1 ∧ lvlPushAfter.py = lvlPush.py + 0)) ∧
    (∀ x y : Int, (x, y) ≠ (lvlPush.px + 1, lvlPush.py + 0) →
      (x, y) ≠ (lvlPush.px + 2 * 1, lvlPush.py + 2 * 0) →
      gridGet lvlPushAfter.grid x y = gridGet lvlPush.grid x y) :=
  @move_frame_condition 1 0 lvlPush lvlPushAfter rfl

/-! Session-level lemmas for undo and win detection. -/

theorem attemptMove_eq (s : Session) (d : Nat) :
    attemptMove s d = (replayMove s.curLev d).map
      (fun l => { currentLevelNumber := s.currentLevelNumber,
                  moves := s.moves ++ [d], curLev := l }) := by
  unfold attemptMove
  cases replayMove s.curLev d <;> rfl

theorem runMoves_eq :
    ∀ (ds : List Nat) (idx : Nat) (ms : List Nat) (l : Level),
      runMoves { currentLevelNumber := idx, moves := ms, curLev := l } ds
        = (replayAll l ds).map
            (fun lf => { currentLevelNumber := idx, moves := ms ++ ds, curLev := lf }) := by
  intro ds
  induction ds with
  | nil => intro idx ms l; simp [runMoves, replayAll]
  | cons d ds ih =>
    intro idx ms l
    cases hr : replayMove l d with
    | none =>
      simp only [runMoves, replayAll, attemptMove_eq, hr, Option.map_none']
    | some l1 =>
      simp only [runMoves, replayAll, attemptMove_eq, hr, Option.map_some']
      rw [ih idx (ms ++ [d]) l1, List.append_assoc]
      rfl

theorem replayAll_append :
    ∀ (as bs : List Nat) (l : Level),
      replayAll l (as ++ bs) = (replayAll l as).bind (fun l1 => replayAll l1 bs) := by
  intro as
  induction as with
  | nil => intro bs l; rfl
  | cons d as ih =>
    intro bs l
    show replayAll l (d :: (as ++ bs)) = _
    cases hr : replayMove l d with
    | none => simp only [replayAll, hr, Option.none_bind]
    | some l1 =>
      simp only [replayAll, hr, Option.some_bind]
      exact ih bs l1

/-- C5: with a nonempty history of attempted moves played from a freshly
decoded level, undo re-decodes the level at the current index, replays all but
the last history entry in order, and drops the last entry, yielding exactly
the session that existed after the first N-1 attempts; undo with an empty
history changes nothing. -/
theorem undo_replays_history {levels : Nat → List Nat} {fuel idx : Nat} {l0 : Level}
    {ds : List Nat} {s : Session}
    (hdec : decompressLevel fuel (levels idx) = some l0)
    (hrun : runMoves { currentLevelNumber := idx, moves := [], curLev := l0 } ds = some s)
    (hne : ds ≠ []) :
    (∃ s', runMoves { currentLevelNumber := idx, moves := [], curLev := l0 } ds.dropLast
        = some s' ∧ undo levels fuel s = some s') ∧
    (∀ s0 : Session, s0.moves = [] → undo levels fuel s0 = some s0) := by
  constructor
  · rw [runMoves_eq] at hrun
    cases hra : replayAll l0 ds with
    | none => rw [hra] at hrun; cases hrun
    | some lf =>
      rw [hra, Option.map_some'] at hrun
      simp only [List.nil_append] at hrun
      cases hrun
      have hds : ds.dropLast ++ [ds.getLast hne] = ds := List.dropLast_append_getLast hne
      have hra2 : replayAll l0 (ds.dropLast ++ [ds.getLast hne]) = some lf := by
        rw [hds]; exact hra
      rw [replayAll_append] at hra2
      cases hrd : replayAll l0 ds.dropLast with
      | none => rw [hrd] at hra2; cases hra2
      | some lmid =>
        refine ⟨{ currentLevelNumber := idx, moves := ds.dropLast, curLev := lmid }, ?_, ?_⟩
        · rw [runMoves_eq, hrd, Option.map_some']
          rfl
        · have hpos : ds.length > 0 := List.length_pos.mpr hne
          unfold undo
          simp only [hpos, if_true, hdec, ← List.dropLast_eq_take, hrd]
  · intro s0 h0
    simp [undo, h0]

/-- Witness for undo_replays_history: a single attempted move to the left on
the decoded demonstration level, then undo. -/
theorem undo_replays_history_witness :
    (∃ s', runMoves { currentLevelNumber := 0, moves := [], curLev := demoLevel }
        ([LEFT].dropLast) = some s' ∧
      undo demoLevels 20
        { currentLevelNumber := 0, moves := [LEFT],
          curLev := { demoLevel with psprite := PLAYERLE, px := 0 } } = some s') ∧
    (∀ s0 : Session, s0.moves = [] → undo demoLevels 20 s0 = some s0) :=
  @undo_replays_history demoLevels 20 0 demoLevel [LEFT]
    { currentLevelNumber := 0, moves := [LEFT],
      curLev := { demoLevel with psprite := PLAYERLE, px := 0 } }
    rfl rfl (by decide)

/-- C6: the level is reported solved exactly when the number of grid cells
equal to Box (PlacedBox does not count) is zero — the source's nBoxesLeft
agrees with the direct cell count — and on a win the level index is
incremented and clamped at the final index, the level at the new index is
freshly decoded, and the history is cleared; with a Box cell remaining the
session is untouched. -/
theorem winCheck_boxes {levels : Nat → List Nat} {fuel : Nat} {s : Session}
    (hs : WellShaped s.curLev) :
    (nBoxesLeft s.curLev = 0 ↔ boxCellCount s.curLev.grid = 0) ∧
    (boxCellCount s.curLev.grid ≠ 0 → winCheck levels fuel s = some s) ∧
    (boxCellCount s.curLev.grid = 0 → ∀ s', winCheck levels fuel s = some s' →
      s'.currentLevelNumber = min (s.currentLevelNumber + 1) LEVEL_MAX ∧
      s'.moves = [] ∧
      decompressLevel fuel (levels s'.currentLevelNumber) = some s'.curLev) := by
  have hv : nBoxesLeft s.curLev = boxCellCount s.curLev.grid := nBoxesLeft_eq_boxCellCount hs
  refine ⟨by rw [hv], ?_, ?_⟩
  · intro hnz
    unfold winCheck
    rw [if_neg (by rw [hv]; exact hnz)]
  · intro hz s' hwc
    unfold winCheck at hwc
    rw [if_pos (by rw [hv]; exact hz)] at hwc
    cases hdl : decompressLevel fuel
        (levels (if s.currentLevelNumber + 1 > LEVEL_MAX then LEVEL_MAX
                 else s.currentLevelNumber + 1)) with
    | none => rw [hdl] at hwc; cases hwc
    | some lnew =>
      rw [hdl] at hwc
      cases hwc
      refine ⟨?_, rfl, hdl⟩
      show (if s.currentLevelNumber + 1 > LEVEL_MAX then LEVEL_MAX
            else s.currentLevelNumber + 1) = min (s.currentLevelNumber + 1) LEVEL_MAX
      rw [Nat.min_def]
      split <;> split <;> omega

/-- Witness for winCheck_boxes: the box-free 1-by-1 level is solved and the
session advances to the freshly decoded next level. -/
theorem winCheck_boxes_witness :
    (nBoxesLeft lvlTiny = 0 ↔ boxCellCount lvlTiny.grid = 0) ∧
    (boxCellCount lvlTiny.grid ≠ 0 →
      winCheck demoLevels 20 { currentLevelNumber := 0, moves := [], curLev := lvlTiny }
        = some { currentLevelNumber := 0, moves := [], curLev := lvlTiny }) ∧
    (boxCellCount lvlTiny.grid = 0 → ∀ s',
      winCheck demoLevels 20 { currentLevelNumber := 0, moves := [], curLev := lvlTiny }
        = some s' →
      s'.currentLevelNumber = min (0 + 1) LEVEL_MAX ∧
      s'.moves = [] ∧
      decompressLevel 20 (demoLevels s'.currentLevelNumber) = some s'.curLev) :=
  @winCheck_boxes demoLevels 20 { currentLevelNumber := 0, moves := [], curLev := lvlTiny }
    (by decide)

end Sokoban
